import Mathlib

/-!
Verification of the CoastSat-CWL incremental shoreline pipeline.

Shallow embedding of the merge/alignment/aggregation logic of the repository:
 * `aggregate_transects_wrapper.py` (column-wise aggregation of per-site fragments),
 * `linear_models.py` (trend merge: `DataFrame.update` plus left-join of new columns),
 * `tidal_correction.py` / `tidal_correction_apply_wrapper.py` (tide alignment and correction),
 * `batch_process_NZ.py` / `batch_process_nz_wrapper.py` (observation-store watermark),
 * `slope_estimation.py` / `slope_estimation_wrapper.py` (slope scope filter and result merge),
 * `despike` (outlier filter, delegating the flagging statistic to the vendored coastsat core).

Tables are modelled with row keys and column names as strings and cell values as
`Option ℚ` (`none` is pandas NaN/null); numeric values are modelled as rationals since
the embedded logic only copies, adds and divides values.
-/

namespace CoastSat

/-- A pandas DataFrame/GeoDataFrame keyed by row id (`set_index("id")`):
an ordered list of row keys, an ordered list of column names, and a cell lookup.
`none` models NaN. -/
structure Table where
  rows : List String
  cols : List String
  val : String → String → Option ℚ

/-! ### Aggregator: `aggregate_transects_wrapper.py`, `aggregate_transects` -/

/-- Lines 56-68: columns to update are `update_columns` if given, else the
auto-detected numeric columns of the site file; in either case restricted to
columns present in both the site frame and the base frame. -/
def cols_to_update (base site : Table) (update_columns : Option (List String))
    (numeric_cols : List String) : List String :=
  (match update_columns with
   | none => numeric_cols
   | some u => u).filter (fun c => decide (c ∈ site.cols) && decide (c ∈ base.cols))

/-- Lines 76-88: one per-site file step of `aggregate_transects`. Only row ids in
`base_gdf.index.intersection(site_gdf.index)` are visited, and a cell is overwritten
only when the site value is not NaN (`pd.notna`). Row keys and columns of the base
are never extended. The `continue` guards for empty `cols_to_update` or empty
`common_ids` are value-level no-ops and need no separate case here. -/
def aggregate_step (base site : Table) (update_columns : Option (List String))
    (numeric_cols : List String) : Table :=
  let ctu := cols_to_update base site update_columns numeric_cols
  let common := base.rows.filter (fun r => decide (r ∈ site.rows))
  { rows := base.rows
    cols := base.cols
    val := fun r c =>
      if r ∈ common ∧ c ∈ ctu ∧ (site.val r c).isSome then site.val r c
      else base.val r c }

/-- Lines 46-90: fold of `aggregate_step` over the per-site files in supplied order.
`numeric_cols` is the per-file dtype detection, a pandas metadata query, supplied
as a function of the fragment. -/
def aggregate_transects (base : Table) (per_site : List Table)
    (update_columns : Option (List String)) (numeric_cols : Table → List String) : Table :=
  per_site.foldl (fun acc site => aggregate_step acc site update_columns (numeric_cols site)) base

/-! ### Trend merge: `linear_models.py`, `calculate_linear_models` lines 167-175 -/

/-- `transects.update(trends)` (pandas `DataFrame.update`, default `overwrite=True`):
aligns on the existing index and columns of `transects`; a cell is overwritten only
when the corresponding `trends` value is not NaN. No rows or columns are added. -/
def lm_update (transects trends : Table) : Table :=
  { rows := transects.rows
    cols := transects.cols
    val := fun r c =>
      if r ∈ trends.rows ∧ c ∈ trends.cols ∧ (trends.val r c).isSome then trends.val r c
      else transects.val r c }

/-- `trends.columns[~trends.columns.isin(transects.columns)]`. -/
def lm_new_columns (transects trends : Table) : List String :=
  trends.cols.filter (fun c => decide (c ∉ transects.cols))

/-- `transects = transects.join(trends[new_columns])`: left join on the base index,
new columns default to NaN for rows the fragment does not cover. -/
def lm_join_new (upd trends : Table) (nc : List String) : Table :=
  { rows := upd.rows
    cols := upd.cols ++ nc
    val := fun r c =>
      if c ∈ nc then (if r ∈ trends.rows then trends.val r c else none)
      else upd.val r c }

/-- Lines 167-175 of `calculate_linear_models`: update existing columns in place,
then left-join the new columns. -/
def lm_merge (transects trends : Table) : Table :=
  lm_join_new (lm_update transects trends) trends (lm_new_columns transects trends)

/-! ### Theorems for the merge engine -/

/-- C1: `merge(B, [F])` leaves every row keyed in `B` but not in `F` unchanged in
all columns, and the merged result has exactly the row-key set of `B` (rows present
only in `F` are never inserted). Stated for both implementations: the
`aggregate_transects` wrapper (rows, columns and all untouched cells preserved) and
the `calculate_linear_models` update-plus-join (rows preserved; untouched rows keep
every base-column value). -/
theorem merge_base_preservation
    (B F : Table) (u : Option (List String)) (n : List String) (r c : String)
    (hr : r ∉ F.rows)
    (T G : Table) (r' c' : String)
    (hr' : r' ∉ G.rows) (hc' : c' ∈ T.cols) :
    (aggregate_transects B [F] u (fun _ => n)).rows = B.rows ∧
    (aggregate_transects B [F] u (fun _ => n)).cols = B.cols ∧
    (aggregate_transects B [F] u (fun _ => n)).val r c = B.val r c ∧
    (lm_merge T G).rows = T.rows ∧
    (lm_merge T G).val r' c' = T.val r' c' := by
  refine ⟨rfl, rfl, ?_, rfl, ?_⟩
  · show (aggregate_step B F u n).val r c = B.val r c
    unfold aggregate_step
    simp only [if_neg, ite_eq_right_iff]
    intro h
    exact absurd (List.of_mem_filter h.1) (by simpa using hr)
  · show (lm_merge T G).val r' c' = T.val r' c'
    unfold lm_merge lm_join_new lm_update lm_new_columns
    have hnc : c' ∉ (lm_new_columns T G) := by
      unfold lm_new_columns
      intro h
      have := List.of_mem_filter h
      simp at this
      exact this hc'
    simp only
    rw [if_neg (by simpa [lm_new_columns] using hnc)]
    rw [if_neg (fun h => hr' h.1)]

/-- C1 witness: the theorem applied at concrete tables. -/
theorem merge_base_preservation_witness :
    (aggregate_transects
      ⟨["t1", "t2"], ["beach_slope"], fun r _ => if r = "t1" then some 3 else some 4⟩
      [⟨["t1"], ["beach_slope"], fun _ _ => some 9⟩] none (fun _ => ["beach_slope"])).val "t2" "beach_slope"
      = some 4 ∧
    (lm_merge ⟨["t1", "t2"], ["trend"], fun r _ => if r = "t1" then some 3 else some 4⟩
      ⟨["t1"], ["trend"], fun _ _ => some 9⟩).val "t2" "trend" = some 4 := by
  have h := merge_base_preservation
    ⟨["t1", "t2"], ["beach_slope"], fun r _ => if r = "t1" then some 3 else some 4⟩
    ⟨["t1"], ["beach_slope"], fun _ _ => some 9⟩ none ["beach_slope"] "t2" "beach_slope"
    (by decide)
    ⟨["t1", "t2"], ["trend"], fun r _ => if r = "t1" then some 3 else some 4⟩
    ⟨["t1"], ["trend"], fun _ _ => some 9⟩ "t2" "trend" (by decide) (by decide)
  exact ⟨h.2.2.1.trans (by decide), h.2.2.2.2.trans (by decide)⟩

/-- C2: merge null-safety. If the fragment value at `(r, c)` is null and the base
value is non-null, the merged value equals the base value, in both implementations
(`pd.notna` guard in the aggregate wrapper; skip-on-NaN of `DataFrame.update` in
the trend merge). -/
theorem merge_null_safety
    (B F : Table) (u : Option (List String)) (n : List String) (r c : String)
    (hF : F.val r c = none) (hB : (B.val r c).isSome)
    (T G : Table) (r' c' : String)
    (hG : G.val r' c' = none) (hT : (T.val r' c').isSome)
    (hc : c' ∈ T.cols) (hc2 : c' ∈ G.cols) :
    (aggregate_transects B [F] u (fun _ => n)).val r c = B.val r c ∧
    (lm_merge T G).val r' c' = T.val r' c' := by
  constructor
  · show (aggregate_step B F u n).val r c = B.val r c
    unfold aggregate_step
    simp only [ite_eq_right_iff]
    intro h
    rw [hF] at h
    exact absurd h.2.2 (by simp)
  · show (lm_merge T G).val r' c' = T.val r' c'
    unfold lm_merge lm_join_new lm_update
    have hnc : c' ∉ (lm_new_columns T G) := by
      unfold lm_new_columns
      intro h
      have := List.of_mem_filter h
      simp at this
      exact this hc
    simp only
    rw [if_neg (by simpa [lm_new_columns] using hnc)]
    rw [if_neg (fun h => by rw [hG] at h; exact absurd h.2.2 (by simp))]

/-- C2 witness: the theorem applied at concrete tables where the fragment holds a
NaN over a non-null base value. -/
theorem merge_null_safety_witness :
    (aggregate_transects
      ⟨["t1"], ["beach_slope"], fun _ _ => some 3⟩
      [⟨["t1"], ["beach_slope"], fun _ _ => none⟩] none (fun _ => ["beach_slope"])).val
      "t1" "beach_slope" = some 3 ∧
    (lm_merge ⟨["t1"], ["trend"], fun _ _ => some 3⟩
      ⟨["t1"], ["trend"], fun _ _ => none⟩).val "t1" "trend" = some 3 := by
  have h := merge_null_safety
    ⟨["t1"], ["beach_slope"], fun _ _ => some 3⟩
    ⟨["t1"], ["beach_slope"], fun _ _ => none⟩ none ["beach_slope"] "t1" "beach_slope"
    (by decide) (by decide)
    ⟨["t1"], ["trend"], fun _ _ => some 3⟩
    ⟨["t1"], ["trend"], fun _ _ => none⟩ "t1" "trend"
    (by decide) (by decide) (by decide) (by decide)
  exact ⟨h.1.trans (by decide), h.2.trans (by decide)⟩

/-- C9 counterexample: in `aggregate_transects` a fragment column absent from the
base is silently discarded, not left-joined: with base columns `["geometry"]` and a
fragment carrying a `"trend"` column, the merged table has no `"trend"` column. -/
theorem aggregate_drops_new_columns :
    "trend" ∈ (Table.mk ["t1"] ["trend"]
        (fun r c => if r = "t1" ∧ c = "trend" then some 1 else none)).cols ∧
    "trend" ∉ (aggregate_transects
        ⟨["t1"], ["geometry"], fun _ _ => none⟩
        [⟨["t1"], ["trend"], fun r c => if r = "t1" ∧ c = "trend" then some 1 else none⟩]
        none (fun _ => ["trend"])).cols := by
  decide

/-- C9 amended: in `calculate_linear_models` every fragment column not already in
the base is left-joined onto the base table with null for every base row the
fragment does not cover, and every fragment column is present in the merged result;
in `aggregate_transects`, by contrast, the merged columns are exactly the base
columns, so fragment-only columns are discarded. -/
theorem merge_new_columns_amended
    (T G : Table) (c r : String)
    (hc : c ∈ G.cols) (hcn : c ∉ T.cols) (hr : r ∉ G.rows)
    (c2 : String) (hc2 : c2 ∈ G.cols)
    (B F : Table) (u : Option (List String)) (n : List String) :
    c ∈ (lm_merge T G).cols ∧
    (lm_merge T G).val r c = none ∧
    c2 ∈ (lm_merge T G).cols ∧
    (aggregate_transects B [F] u (fun _ => n)).cols = B.cols := by
  have hmem : c ∈ lm_new_columns T G := by
    unfold lm_new_columns
    exact List.mem_filter.mpr ⟨hc, by simpa using hcn⟩
  refine ⟨?_, ?_, ?_, rfl⟩
  · unfold lm_merge lm_join_new
    simp only [List.mem_append]
    exact Or.inr hmem
  · unfold lm_merge lm_join_new
    simp only
    rw [if_pos (by simpa [lm_new_columns] using hmem)]
    rw [if_neg hr]
  · unfold lm_merge lm_join_new lm_update
    simp only [List.mem_append]
    by_cases h : c2 ∈ T.cols
    · exact Or.inl h
    · exact Or.inr (by
        unfold lm_new_columns
        exact List.mem_filter.mpr ⟨hc2, by simpa using h⟩)

/-- C9 amended witness: the theorem applied at a concrete base/fragment pair. -/
theorem merge_new_columns_amended_witness :
    "trend" ∈ (lm_merge ⟨["t1", "t2"], ["geometry"], fun _ _ => none⟩
      ⟨["t1"], ["trend"], fun _ _ => some 1⟩).cols ∧
    (lm_merge ⟨["t1", "t2"], ["geometry"], fun _ _ => none⟩
      ⟨["t1"], ["trend"], fun _ _ => some 1⟩).val "t2" "trend" = none := by
  have h := merge_new_columns_amended
    ⟨["t1", "t2"], ["geometry"], fun _ _ => none⟩
    ⟨["t1"], ["trend"], fun _ _ => some 1⟩ "trend" "t2"
    (by decide) (by decide) (by decide) "trend" (by decide)
    ⟨["t1"], ["geometry"], fun _ _ => none⟩
    ⟨["t1"], ["trend"], fun _ _ => some 1⟩ none ["trend"]
  exact ⟨h.1, h.2.1⟩

/-! ### Outlier filter: `despike` in `tidal_correction.py` (lines 166-179) and
`linear_models.py` (lines 28-45) -/

/-- `chainage.dropna()`: keep the (timestamp, value) pairs whose value is not NaN,
in order. Timestamps are minutes since the epoch. -/
def dropna (chainage : List (Nat × Option ℚ)) : List (Nat × ℚ) :=
  chainage.filterMap (fun p => p.2.map (fun v => (p.1, v)))

/-- Modelled from the spec: `SDS_transects.identify_outliers` lives in the vendored
coastsat package, which is not under src/. Per the spec it flags a point if its
deviation from a local neighborhood estimate exceeds the threshold and removes
flagged points only, inventing and modifying nothing; the flagging decision is
abstracted as a boolean function of the threshold, the whole series and the
position of the point. -/
def identify_outliers (flag : ℚ → List (Nat × ℚ) → Nat → Bool) (threshold : ℚ)
    (xs : List (Nat × ℚ)) : List (Nat × ℚ) :=
  (xs.enum.filter (fun p => ! flag threshold xs p.1)).map Prod.snd

/-- `despike(chainage, threshold)`: drop NaNs, then apply the outlier test. -/
def despike (flag : ℚ → List (Nat × ℚ) → Nat → Bool) (chainage : List (Nat × Option ℚ))
    (threshold : ℚ) : List (Nat × ℚ) :=
  identify_outliers flag threshold (dropna chainage)

/-- C6: for every flagging primitive, input series and threshold, the despiked
series is a subsequence of the non-null values of the input, preserving relative
order and original timestamps (nothing is invented or modified, only removed), and
`(despike series).length ≤ (series.dropna()).length`. -/
theorem despike_subsequence (flag : ℚ → List (Nat × ℚ) → Nat → Bool)
    (chainage : List (Nat × Option ℚ)) (threshold : ℚ) :
    (despike flag chainage threshold).Sublist (dropna chainage) ∧
    (despike flag chainage threshold).length ≤ (dropna chainage).length := by
  have h : (despike flag chainage threshold).Sublist (dropna chainage) := by
    unfold despike identify_outliers
    have hs := (List.filter_sublist
      (l := (dropna chainage).enum) (p := fun p => ! flag threshold (dropna chainage) p.1))
    have hm := hs.map Prod.snd
    rwa [List.enum_map_snd] at hm
  exact ⟨h, h.length_le⟩

/-! ### Observation-store watermark: `batch_process_NZ.py` `process_site`
(lines 106-132) and `batch_process_nz_wrapper.py` `process_site` (lines 126-151) -/

/-- Dates are modelled as day numbers since 1970-01-01; comparison of ISO date
strings in the source is lexicographic, which agrees with this numeric order. -/
def date_1984_01_01 : Nat := 5113

/-- `df.dates.max()` over the day numbers of a non-empty series. -/
def list_max (dates : List Nat) : Nat := dates.foldl max 0

/-- `batch_process_NZ.py` lines 106-132: the requested start date. With
`FORCE_START_DATE` set, the store is treated as empty and the override is used as
is. Otherwise, with existing data, start from `max(date) + 1 day`, clamped to
`TEST_START_DATE` only when `TEST_MODE` is on; with no existing file, start at
`TEST_START_DATE` in test mode and at the 1984-01-01 default otherwise. -/
def batch_min_date (FORCE_START_DATE : Option Nat) (existing : Option (List Nat))
    (TEST_MODE : Bool) (TEST_START_DATE : Nat) : Nat :=
  match FORCE_START_DATE with
  | some f => f
  | none =>
    match existing with
    | some dates =>
      let m := list_max dates + 1
      if TEST_MODE ∧ m < TEST_START_DATE then TEST_START_DATE else m
    | none => if TEST_MODE then TEST_START_DATE else date_1984_01_01

/-- `batch_process_nz_wrapper.py` lines 126-151: same watermark, except that the
final clamp `if min_date < start_date: min_date = start_date` applies to every
branch, including the `force_start_date` override. -/
def wrapper_min_date (force_start_date : Option Nat) (existing : Option (List Nat))
    (start_date : Nat) : Nat :=
  let m :=
    match force_start_date with
    | some f => f
    | none =>
      match existing with
      | some dates => list_max dates + 1
      | none => start_date
  if m < start_date then start_date else m

/-- C5 counterexample: the claim fails on the code in both directions. In the CWL
wrapper a `force_start_date` of day 100 with configured start 200 yields 200, not
the override verbatim; in `batch_process_NZ.py` outside test mode the watermark
`max(date)+1` is not clamped to the configured global minimum (1984-01-01 = day
5113): a store whose max date is day 5 yields day 6. -/
theorem watermark_counterexample :
    wrapper_min_date (some 100) (some [500]) 200 = 200 ∧ (100 : Nat) ≠ 200 ∧
    batch_min_date none (some [5]) false 0 = 6 ∧ 6 < date_1984_01_01 := by
  decide

/-- C5 amended: with no override and a non-empty store, the wrapper requests
`max(max(date)+1, start_date)` (watermark clamped to the configured minimum) while
`batch_process_NZ.py` outside test mode requests `max(date)+1` unclamped; with a
`force_start_date` override both treat the store as empty, `batch_process_NZ.py`
uses the override verbatim, and the wrapper additionally clamps the override to the
configured `start_date`. -/
theorem watermark_advance_amended
    (dates : List Nat) (hne : dates ≠ []) (s f t : Nat) (ex : Option (List Nat)) :
    wrapper_min_date none (some dates) s = max (list_max dates + 1) s ∧
    wrapper_min_date (some f) ex s = max f s ∧
    batch_min_date none (some dates) false t = list_max dates + 1 ∧
    batch_min_date (some f) ex false t = f := by
  refine ⟨?_, ?_, ?_, rfl⟩
  · unfold wrapper_min_date
    simp only
    split <;> omega
  · unfold wrapper_min_date
    simp only
    split <;> omega
  · unfold batch_min_date
    simp

/-- C5 amended witness: the theorem applied at a concrete store and dates. -/
theorem watermark_advance_amended_witness :
    wrapper_min_date none (some [10, 20]) 3 = 21 ∧
    wrapper_min_date (some 7) none 3 = 7 ∧
    batch_min_date none (some [10, 20]) false 0 = 21 ∧
    batch_min_date (some 7) none false 0 = 7 := by
  have h := watermark_advance_amended [10, 20] (by decide) 3 7 0 none
  exact ⟨h.1.trans (by decide), h.2.1.trans (by decide), h.2.2.1.trans (by decide), h.2.2.2⟩

/-! ### Tide aligner and corrector: `tidal_correction_apply_wrapper.py` `main`
(lines 59-114) and `tidal_correction.py` `process_site` (lines 264-341).

Timestamps are minutes since the epoch. One transect column is modelled; the per
column semantics of the pandas frame operations are identical across columns. -/

/-- `pd.Timestamp.round("10min")`: nearest multiple of 10 minutes, ties (remainder
exactly 5) to the even multiple, as pandas rounds half to even. -/
def round10 (t : Nat) : Nat :=
  let q := t / 10
  let r := t % 10
  if r < 5 then 10 * q
  else if 5 < r then 10 * (q + 1)
  else if q % 2 = 0 then 10 * q else 10 * (q + 1)

/-- `sat_times = pd.to_datetime(raw_intersects.dates).dt.round("10min")`. -/
def sat_times (raw : List (Nat × Option ℚ)) : List Nat :=
  raw.map (fun p => round10 p.1)

/-- `tides = tides[tides.index.isin(sat_times)]`: keep the tide samples whose
(as-stored) timestamp equals some rounded observation timestamp. -/
def filtered_tides (raw : List (Nat × Option ℚ)) (tides : List (Nat × ℚ)) :
    List (Nat × ℚ) :=
  tides.filter (fun s => decide (s.1 ∈ sat_times raw))

/-- Label lookup in the corrections frame (the row of `corrections` at a given
index label). -/
def lookup_tide (tides : List (Nat × ℚ)) (t : Nat) : Option ℚ :=
  (tides.find? (fun s => s.1 == t)).map (fun s => s.2)

/-- Lines 74-90 of the wrapper (identically lines 300-318 of `process_site`):
`corrections = tides.tide.apply(lambda tide: tide / beach_slopes)` indexed by the
filtered tide timestamps, then `corrections.reindex(raw_intersects.index,
fill_value=0)` — the reindex is over the raw, unrounded observation index, so a
row whose raw timestamp is not itself a stored tide label gets correction 0 —
and finally `tidally_corrected = raw_intersects + corrections` (NaN + x = NaN).
`beach_slope` is the filled per-transect slope
(`transects_at_site.beach_slope.interpolate().bfill().ffill()`), supplied here as
the already-filled value for the modelled transect column. -/
def tidally_corrected_column (raw : List (Nat × Option ℚ)) (tides : List (Nat × ℚ))
    (beach_slope : ℚ) : List (Nat × Option ℚ) :=
  raw.map (fun p =>
    (p.1, p.2.map (fun v =>
      v + match lookup_tide (filtered_tides raw tides) p.1 with
          | some h => h / beach_slope
          | none => 0)))

/-- Lines 59-90 of the wrapper `main`: filter the tides against the rounded
observation timestamps, fail with exit code 1 when none match, else apply the
correction. -/
def tidal_correction_apply (raw : List (Nat × Option ℚ)) (tides : List (Nat × ℚ))
    (beach_slope : ℚ) : Except String (List (Nat × Option ℚ)) :=
  if (filtered_tides raw tides).isEmpty then
    Except.error "No matching tides found"
  else
    Except.ok (tidally_corrected_column raw tides beach_slope)

/-- C3, evaluated at the failing input: one observation at minute 3 with chainage
10, one tide sample of height 2 on the 10-minute grid point 0, beach slope 1. The
rounded observation timestamp (0) matches the tide sample, so under the claim the
corrected value is 10 + 2/1 = 12 and the match is made on rounded timestamps; the
code instead reindexes corrections on the raw index, the raw minute 3 matches no
tide label, and the row gets correction 0: the output value stays 10. Row-count
parity and zero-fill (rather than dropping) do hold — the output keeps exactly the
one raw row. -/
theorem tidal_rounding_mismatch :
    round10 3 = 0 ∧
    ((0 : Nat), (2 : ℚ)) ∈ filtered_tides [(3, some 10)] [(0, 2)] ∧
    tidal_correction_apply [(3, some 10)] [(0, 2)] 1 = Except.ok [(3, some 10)] ∧
    (10 : ℚ) + 2 / 1 = 12 := by
  have hf : filtered_tides [(3, some 10)] [(0, 2)] = [(0, 2)] := by decide
  refine ⟨by decide, by decide, ?_, by norm_num⟩
  unfold tidal_correction_apply tidally_corrected_column
  rw [hf]
  simp [lookup_tide, List.find?]

structure Transect where
  id : String
  site_id : String
  beach_slope : Option ℚ
deriving DecidableEq

/-- `s.startswith(p)` of Python, on the character sequences of the strings
(`String.startsWith` itself is not kernel-reducible). -/
def str_startswith (s p : String) : Bool := p.data.isPrefixOf s.data

/-- The effect of `transects.loc[key, "beach_slope"] = value` on one row: a row
whose id is a key of the result mapping gets the mapped slope. -/
def slope_upd (slope_est : List (String × ℚ)) (tr : Transect) : Transect :=
  match slope_est.find? (fun p => p.1 == tr.id) with
  | some p => { tr with beach_slope := some p.2 }
  | none => tr

/-- `transects.loc[key, "beach_slope"] = value` for every key of the result
mapping. -/
def apply_slope_updates (ts : List Transect) (slope_est : List (String × ℚ)) :
    List Transect :=
  ts.map (slope_upd slope_est)

/-- The result mapping one site run produces in `estimate_slopes` (lines 137-159):
the loop runs over every transect column of the site time-series file
(`for key in df.keys()`), keeping the keys where the fit succeeds. -/
def site_slope_est (df_columns : List String) (fit : String → Option ℚ) :
    List (String × ℚ) :=
  df_columns.filterMap (fun k => (fit k).map (fun v => (k, v)))

/-- `pd.Series.unique()`: unique values in order of first appearance. -/
def unique_keep_first (l : List String) : List String :=
  l.foldl (fun acc t => if t ∈ acc then acc else acc ++ [t]) []

/-- `estimate_slopes` of `slope_estimation.py`: select the transects that still
need a slope (`index.str.startswith("nzd") & beach_slope.isna()`), take their
sites, and then, for each such site, estimate and write back a slope for EVERY
transect column of that site file, not only for the null-slope transects.
`df_columns` gives the transect columns of each site file and `fit` the external
fit outcome per site and column. Rows added by `.loc` enlargement for ids absent
from the table are not modelled; the claims quantify over rows already present. -/
def estimate_slopes (df_columns : String → List String)
    (fit : String → String → Option ℚ) (transects : List Transect) : List Transect :=
  let new_transects := transects.filter
    (fun tr => str_startswith tr.id "nzd" && tr.beach_slope.isNone)
  let sites := unique_keep_first (new_transects.map (fun tr => tr.site_id))
  sites.foldl
    (fun acc site => apply_slope_updates acc (site_slope_est (df_columns site) (fit site)))
    transects

/-- `estimate_slopes_for_site` of the wrapper: restrict to this site, process only
transects whose `beach_slope` is null AND whose id is a column of the time-series
file, and update only the ids present in the result mapping; when nothing needs a
slope or nothing was estimated, the site rows are returned unchanged. -/
def estimate_slopes_for_site (site : String) (df_columns : List String)
    (fit : String → Option ℚ) (transects : List Transect) : List Transect :=
  let site_rows := transects.filter (fun tr => tr.site_id == site)
  let needing := transects.filter
    (fun tr => tr.site_id == site && tr.beach_slope.isNone)
  if needing.isEmpty then site_rows
  else
    let to_process := (needing.map (fun tr => tr.id)).filter (fun t => decide (t ∈ df_columns))
    let slope_est := to_process.filterMap (fun k => (fit k).map (fun v => (k, v)))
    if slope_est.isEmpty then site_rows
    else apply_slope_updates site_rows slope_est

/-- C7 counterexample: in `estimate_slopes` the null-slope filter acts at site
granularity only. Site "s1" holds transect "nzd1" with no slope and transect
"nzd2" with slope 2; both are columns of the site file and the fit returns 3 for
every column. Running the stage overwrites the already-solved slope of "nzd2"
with 3, so a transect with non-null `beach_slope` is not left unchanged. -/
theorem slope_overwrite_counterexample :
    (estimate_slopes (fun _ => ["nzd1", "nzd2"]) (fun _ _ => some 3)
        [⟨"nzd1", "s1", none⟩, ⟨"nzd2", "s1", some 2⟩]).map Transect.beach_slope
      = [some 3, some 3] ∧
    (2 : ℚ) ≠ 3 := by
  constructor
  · decide
  · norm_num

/-- A fold of row-wise updates over sites is a row-wise fold. -/
theorem foldl_map_comm {σ α : Type} (g : σ → α → α) (l : List σ) (xs : List α) :
    l.foldl (fun acc s => acc.map (g s)) xs
      = xs.map (fun x => l.foldl (fun y s => g s y) x) := by
  induction l generalizing xs with
  | nil => simp
  | cons s t ih =>
    simp only [List.foldl_cons, ih, List.map_map]
    rfl

/-- A row whose id is not a key of the mapping is unchanged by `slope_upd`. -/
theorem slope_upd_id (est : List (String × ℚ)) (tr : Transect)
    (h : est.find? (fun p => p.1 == tr.id) = none) : slope_upd est tr = tr := by
  unfold slope_upd
  rw [h]

/-- A row never touched by any site run is unchanged by the whole fold. -/
theorem fold_slope_upd_id (df_columns : String → List String)
    (fit : String → String → Option ℚ) (sites : List String) (tr : Transect)
    (h : ∀ s, (site_slope_est (df_columns s) (fit s)).find? (fun p => p.1 == tr.id) = none) :
    sites.foldl (fun y s => slope_upd (site_slope_est (df_columns s) (fit s)) y) tr = tr := by
  induction sites with
  | nil => rfl
  | cons s t ih =>
    simp only [List.foldl_cons, slope_upd_id _ _ (h s), ih]

/-- C7 amended: the CWL wrapper `estimate_slopes_for_site` processes only
transects whose `beach_slope` is null and updates only ids in its result mapping,
so (with distinct transect ids) every transect of the site whose slope is already
non-null appears unchanged in its output; `estimate_slopes` of
`slope_estimation.py` applies the null-slope filter at site granularity only: a
site with no null-slope "nzd" transect is skipped entirely (so a run after full
success recomputes nothing), and a transect whose id is estimated by no processed
site run retains its prior null slope — but at a site with at least one null-slope
transect it re-estimates every transect column of the site file, overwriting
already-solved slopes (see the counterexample). -/
theorem slope_scope_amended
    (site : String) (cols : List String) (fit : String → Option ℚ)
    (ts : List Transect) (tr : Transect) (v : ℚ)
    (hnd : (ts.map Transect.id).Nodup)
    (htr : tr ∈ ts) (hsite : tr.site_id = site) (hv : tr.beach_slope = some v)
    (cols2 : String → List String) (fit2 : String → String → Option ℚ)
    (ts2 : List Transect)
    (hclean : ∀ t2 ∈ ts2, ¬(str_startswith t2.id "nzd" = true ∧ t2.beach_slope = none))
    (cols3 : String → List String) (fit3 : String → String → Option ℚ)
    (ts3 : List Transect) (tr3 : Transect)
    (h3 : tr3 ∈ ts3)
    (hmiss : ∀ s, (site_slope_est (cols3 s) (fit3 s)).find? (fun p => p.1 == tr3.id) = none) :
    tr ∈ estimate_slopes_for_site site cols fit ts ∧
    estimate_slopes cols2 fit2 ts2 = ts2 ∧
    tr3 ∈ estimate_slopes cols3 fit3 ts3 := by
  refine ⟨?_, ?_, ?_⟩
  · have hmem : tr ∈ ts.filter (fun t => t.site_id == site) :=
      List.mem_filter.mpr ⟨htr, by simp [hsite]⟩
    unfold estimate_slopes_for_site
    simp only
    split
    · exact hmem
    · split
      · exact hmem
      · unfold apply_slope_updates
        refine List.mem_map.mpr ⟨tr, hmem, ?_⟩
        apply slope_upd_id
        rw [List.find?_eq_none]
        rintro ⟨k, w⟩ hk
        simp only [beq_iff_eq]
        intro hkid
        have hk2 := List.mem_filterMap.mp hk
        obtain ⟨k', hk', hfit⟩ := hk2
        have : k' = k := by
          rcases Option.map_eq_some'.mp hfit with ⟨w', _, h2⟩
          exact (Prod.mk.injEq _ _ _ _).mp h2.symm |>.1.symm
        subst this
        have hk3 := List.of_mem_filter hk'
        have hk4 := List.mem_of_mem_filter hk'
        obtain ⟨t', ht', hid⟩ := List.mem_map.mp hk4
        have ht'' := List.of_mem_filter ht'
        have ht5 := List.mem_of_mem_filter ht'
        -- two rows of ts share the id k = tr.id: by Nodup they are the same row
        have : t' = tr := by
          by_contra hne
          have := List.inj_on_of_nodup_map hnd ht5 htr
          exact hne (this (by rw [hid, hkid]))
        subst this
        simp only [Bool.and_eq_true, Option.isNone_iff_eq_none] at ht''
        rw [hv] at ht''
        exact Option.noConfusion ht''.2
  · unfold estimate_slopes
    have hz : ts2.filter (fun t => str_startswith t.id "nzd" && t.beach_slope.isNone) = [] := by
      rw [List.filter_eq_nil_iff]
      intro a ha
      have := hclean a ha
      simp only [Bool.and_eq_true, Option.isNone_iff_eq_none]
      exact fun hcon => this ⟨hcon.1, hcon.2⟩
    rw [hz]
    rfl
  · unfold estimate_slopes
    simp only
    rw [show (fun (acc : List Transect) (s : String) =>
        apply_slope_updates acc (site_slope_est (cols3 s) (fit3 s)))
      = (fun acc s => acc.map (slope_upd (site_slope_est (cols3 s) (fit3 s)))) from rfl]
    rw [foldl_map_comm]
    refine List.mem_map.mpr ⟨tr3, h3, ?_⟩
    exact fold_slope_upd_id cols3 fit3 _ tr3 hmiss

/-- C7 amended witness: the theorem applied at concrete transect tables. -/
theorem slope_scope_amended_witness :
    (⟨"nzd2", "s1", some 2⟩ : Transect) ∈
      estimate_slopes_for_site "s1" ["nzd1"] (fun _ => some 3)
        [⟨"nzd1", "s1", none⟩, ⟨"nzd2", "s1", some 2⟩] ∧
    estimate_slopes (fun _ => ["nzd1"]) (fun _ _ => some 3)
      [⟨"abc1", "s1", none⟩, ⟨"nzd2", "s1", some 2⟩]
      = [⟨"abc1", "s1", none⟩, ⟨"nzd2", "s1", some 2⟩] ∧
    (⟨"nzd9", "s9", none⟩ : Transect) ∈
      estimate_slopes (fun _ => []) (fun _ _ => none) [⟨"nzd9", "s9", none⟩] := by
  exact slope_scope_amended "s1" ["nzd1"] (fun _ => some 3)
    [⟨"nzd1", "s1", none⟩, ⟨"nzd2", "s1", some 2⟩] ⟨"nzd2", "s1", some 2⟩ 2
    (by decide) (by decide) (by decide) (by decide)
    (fun _ => ["nzd1"]) (fun _ _ => some 3)
    [⟨"abc1", "s1", none⟩, ⟨"nzd2", "s1", some 2⟩]
    (by decide)
    (fun _ => []) (fun _ _ => none) [⟨"nzd9", "s9", none⟩] ⟨"nzd9", "s9", none⟩
    (by decide) (fun _ => rfl)

/-! ### Slope estimator date alignment: `slope_estimation.py` lines 93-102 and
140-151, `slope_estimation_wrapper.py` lines 75-88.

`if not all(pd.to_datetime(df.index).round("10min") == tides.index)` — the
elementwise comparison raises when the two indexes have different lengths —
followed, on mismatch, by rounding both indexes and restricting both frames to
`df.index.intersection(tides.index)` via label-based `.loc` selection, which
returns every row matching each label in sequence. -/

/-- `round10 t` is always a multiple of ten. -/
theorem round10_exists (t : Nat) : ∃ k, round10 t = 10 * k := by
  unfold round10
  simp only
  split
  · exact ⟨t / 10, rfl⟩
  · split
    · exact ⟨t / 10 + 1, rfl⟩
    · split
      · exact ⟨t / 10, rfl⟩
      · exact ⟨t / 10 + 1, rfl⟩

/-- Rounding fixes multiples of ten. -/
theorem round10_mul10 (k : Nat) : round10 (10 * k) = 10 * k := by
  unfold round10
  simp only
  split
  · omega
  · split
    · omega
    · split <;> omega

/-- Rounding to the 10-minute grid is idempotent. -/
theorem round10_idem (t : Nat) : round10 (round10 t) = round10 t := by
  obtain ⟨k, hk⟩ := round10_exists t
  rw [hk, round10_mul10]

/-- `pd.Index.unique()` / the unique pass of `Index.intersection`: unique values
in order of first appearance. -/
def index_unique (l : List Nat) : List Nat :=
  l.foldl (fun acc t => if t ∈ acc then acc else acc ++ [t]) []

/-- `self.intersection(other)`: the unique labels of `self` present in `other`. -/
def index_intersection (self other : List Nat) : List Nat :=
  (index_unique self).filter (fun t => decide (t ∈ other))

/-- `frame.loc[labels]` label-based selection: for each requested label, every
row carrying that label, in frame order. -/
def loc_rows {α : Type} (rows : List (Nat × α)) (labels : List Nat) : List (Nat × α) :=
  labels.flatMap (fun t => rows.filter (fun r => r.1 == t))

/-- Lines 76-84 of the wrapper (identically lines 94-102 of `estimate_slopes`):
if the rounded observation index equals the tide index elementwise, the frames
pass through unchanged; otherwise both indexes are rounded and both frames are
restricted to the intersection of the rounded indexes by label selection. -/
def align_tables (df : List (Nat × Option ℚ)) (tides : List (Nat × ℚ)) :
    List (Nat × Option ℚ) × List (Nat × ℚ) :=
  if ((df.map (fun r => round10 r.1)).zip (tides.map (fun s => s.1))).all
      (fun p => p.1 == p.2) then
    (df, tides)
  else
    let dfR := df.map (fun r => (round10 r.1, r.2))
    let tidesR := tides.map (fun s => (round10 s.1, s.2))
    let common := index_intersection (dfR.map (fun r => r.1)) (tidesR.map (fun s => s.1))
    (loc_rows dfR common, loc_rows tidesR common)

/-- The date-verification step: the pandas elementwise `==` of two indexes raises
`Lengths must match to compare` when their lengths differ; otherwise the
(possibly aligned) frames are produced. -/
def align_dates (df : List (Nat × Option ℚ)) (tides : List (Nat × ℚ)) :
    Except String (List (Nat × Option ℚ) × List (Nat × ℚ)) :=
  if df.length ≠ tides.length then Except.error "Lengths must match to compare"
  else Except.ok (align_tables df tides)

/-- Lines 131-137 of the wrapper (lines 142-148 of `estimate_slopes`): the
per-transect tide input is the tide array under the chainage column's non-null
positional mask (`tides.tide.to_numpy()[~idx_nan]`); numpy raises when the mask
length differs from the array length. The result pairs each surviving
observation with the tide sample at the same position. -/
def tide_masked (df2 : List (Nat × Option ℚ)) (tides2 : List (Nat × ℚ)) :
    Except String (List ((Nat × ℚ) × (Nat × ℚ))) :=
  if df2.length ≠ tides2.length then Except.error "boolean index did not match"
  else Except.ok ((df2.zip tides2).filterMap
    (fun p => p.1.2.map (fun v => ((p.1.1, v), p.2))))

/-- C10 counterexample: when rounding creates duplicate timestamps the aligned
frames can have equal length but pair rows of different dates, and the masked
selection then silently hands a transect the tide of a different timestamp.
Observations at minutes 0, 3, 10 round to 0, 0, 10; tides at 0, 10, 10. The
alignment intersection keeps labels [0, 10]; label selection expands to three
rows on each side, the second pairing the observation rounded to 0 with the tide
sample of minute 10 — no exception is raised. -/
theorem slope_alignment_mispair :
    align_dates [(0, some 1), (3, some 1), (10, some 1)] [(0, 5), (10, 6), (10, 7)]
      = Except.ok ([(0, some 1), (0, some 1), (10, some 1)], [(0, 5), (10, 6), (10, 7)]) ∧
    tide_masked [(0, some 1), (0, some 1), (10, some 1)] [(0, 5), (10, 6), (10, 7)]
      = Except.ok [((0, 1), (0, 5)), ((0, 1), (10, 6)), ((10, 1), (10, 7))] ∧
    (0 : Nat) ≠ 10 := by
  refine ⟨by rfl, by rfl, by decide⟩

/-- Pointwise equal zipped lists of equal length are equal. -/
theorem zip_all_eq (l1 l2 : List Nat) (hlen : l1.length = l2.length)
    (h : ((l1.zip l2).all fun p => p.1 == p.2) = true) : l1 = l2 := by
  induction l1 generalizing l2 with
  | nil => cases l2 with
    | nil => rfl
    | cons b t2 => simp at hlen
  | cons a t ih =>
    cases l2 with
    | nil => simp at hlen
    | cons b t2 =>
      simp only [List.zip_cons_cons, List.all_cons, Bool.and_eq_true, beq_iff_eq] at h
      simp only [List.length_cons, Nat.add_right_cancel_iff] at hlen
      rw [h.1, ih t2 hlen h.2]

/-- Equal mapped keys give pointwise equal keys along the zip. -/
theorem zip_all_of_map_eq {α β : Type} (f : α → Nat) (g : β → Nat) :
    ∀ (l1 : List α) (l2 : List β), l1.map f = l2.map g →
      ((l1.zip l2).all fun p => f p.1 == g p.2) = true := by
  intro l1
  induction l1 with
  | nil => intro l2 h; simp
  | cons a t ih =>
    intro l2 h
    cases l2 with
    | nil => simp at h
    | cons b t2 =>
      simp only [List.map_cons, List.cons.injEq] at h
      simp only [List.zip_cons_cons, List.all_cons, Bool.and_eq_true, beq_iff_eq]
      exact ⟨h.1, ih t2 h.2⟩

/-- With pairwise-distinct keys, selecting one label returns exactly its row. -/
theorem filter_key_singleton {α : Type} (rows : List (Nat × α))
    (hnd : (rows.map Prod.fst).Nodup) (t : Nat) (ht : t ∈ rows.map Prod.fst) :
    (rows.filter (fun r => r.1 == t)).map Prod.fst = [t] := by
  induction rows with
  | nil => simp at ht
  | cons a l ih =>
    simp only [List.map_cons, List.nodup_cons] at hnd
    by_cases ha : a.1 = t
    · have hnone : l.filter (fun r => r.1 == t) = [] := by
        rw [List.filter_eq_nil_iff]
        intro b hb hbt
        exact hnd.1 (ha ▸ (beq_iff_eq.mp hbt) ▸ List.mem_map_of_mem Prod.fst hb)
      rw [List.filter_cons_of_pos (by simpa using ha), hnone]
      simp [ha]
    · have ht2 : t ∈ l.map Prod.fst := by
        rw [List.map_cons] at ht
        rcases List.mem_cons.mp ht with h | h
        · exact absurd h.symm ha
        · exact h
      rw [List.filter_cons_of_neg (by simpa using ha)]
      exact ih hnd.2 ht2

/-- Everything in `index_unique l` comes from `l`. -/
theorem index_unique_subset (l : List Nat) (t : Nat) (h : t ∈ index_unique l) : t ∈ l := by
  have key : ∀ (xs : List Nat) (acc : List Nat),
      t ∈ xs.foldl (fun a x => if x ∈ a then a else a ++ [x]) acc → t ∈ acc ∨ t ∈ xs := by
    intro xs
    induction xs with
    | nil => intro acc h2; exact Or.inl h2
    | cons x rest ih =>
      intro acc h2
      simp only [List.foldl_cons] at h2
      by_cases hx : x ∈ acc
      · rw [if_pos hx] at h2
        rcases ih _ h2 with h3 | h3
        · exact Or.inl h3
        · exact Or.inr (List.mem_cons_of_mem _ h3)
      · rw [if_neg hx] at h2
        rcases ih _ h2 with h3 | h3
        · rcases List.mem_append.mp h3 with h4 | h4
          · exact Or.inl h4
          · have hx4 : t = x := by simpa using h4
            exact Or.inr (hx4 ▸ List.mem_cons_self x rest)
        · exact Or.inr (List.mem_cons_of_mem _ h3)
  rcases key l [] h with h2 | h2
  · simp at h2
  · exact h2

/-- With pairwise-distinct keys, label selection over a label list drawn from the
keys reproduces the label list as the selected keys. -/
theorem loc_rows_map_fst {α : Type} (rows : List (Nat × α)) (labels : List Nat)
    (hnd : (rows.map Prod.fst).Nodup) (hsub : ∀ t ∈ labels, t ∈ rows.map Prod.fst) :
    (loc_rows rows labels).map Prod.fst = labels := by
  unfold loc_rows
  rw [List.map_flatMap]
  rw [List.flatMap_congr (fun t htl => filter_key_singleton rows hnd t (hsub t htl))]
  simp

/-- C10 amended: the date-alignment comparison raises whenever the chainage and
tide tables have different lengths, so lengths are never silently mismatched;
and whenever the rounded timestamp sequences of both tables are duplicate-free,
the aligned tables have equal length, identical (rounded) row order, and every
masked observation/tide pair carries the same rounded timestamp. When rounding
creates duplicate timestamps, however, the aligned tables can pair rows of
different dates without raising (see the counterexample). -/
theorem slope_alignment_amended
    (dfe : List (Nat × Option ℚ)) (te : List (Nat × ℚ)) (hlen : dfe.length ≠ te.length)
    (df : List (Nat × Option ℚ)) (tides : List (Nat × ℚ))
    (hl : df.length = tides.length)
    (hdf : (df.map (fun r => round10 r.1)).Nodup)
    (ht : (tides.map (fun s => round10 s.1)).Nodup) :
    align_dates dfe te = Except.error "Lengths must match to compare" ∧
    ((align_tables df tides).1.map (fun r => round10 r.1))
      = ((align_tables df tides).2.map (fun s => round10 s.1)) ∧
    (align_tables df tides).1.length = (align_tables df tides).2.length ∧
    (((align_tables df tides).1.zip (align_tables df tides).2).all
      (fun p => round10 p.1.1 == round10 p.2.1)) = true := by
  have hmain : ((align_tables df tides).1.map (fun r => round10 r.1))
      = ((align_tables df tides).2.map (fun s => round10 s.1)) := by
    unfold align_tables
    split
    · rename_i hall
      simp only
      have h1 : df.map (fun r => round10 r.1) = tides.map (fun s => s.1) :=
        zip_all_eq _ _ (by simp [hl]) hall
      calc df.map (fun r => round10 r.1)
          = (df.map (fun r => round10 r.1)).map round10 := by
            rw [List.map_map]
            exact (List.map_congr_left (fun a _ => (round10_idem a.1).symm))
        _ = (tides.map (fun s => s.1)).map round10 := by rw [h1]
        _ = tides.map (fun s => round10 s.1) := by rw [List.map_map]; rfl
    · simp only
      have hdfR : ((df.map (fun r => (round10 r.1, r.2))).map Prod.fst).Nodup := by
        rw [List.map_map]
        exact hdf
      have htR : ((tides.map (fun s => (round10 s.1, s.2))).map Prod.fst).Nodup := by
        rw [List.map_map]
        exact ht
      set dfR := df.map (fun r => (round10 r.1, r.2)) with hdfRdef
      set tidesR := tides.map (fun s => (round10 s.1, s.2)) with htRdef
      set common := index_intersection (dfR.map Prod.fst) (tidesR.map Prod.fst) with hcdef
      have hsub1 : ∀ t ∈ common, t ∈ dfR.map Prod.fst := by
        intro t htc
        have := List.of_mem_filter htc
        have hm := List.mem_of_mem_filter htc
        exact index_unique_subset _ _ hm
      have hsub2 : ∀ t ∈ common, t ∈ tidesR.map Prod.fst := by
        intro t htc
        have := List.of_mem_filter htc
        simpa using this
      have e1 : (loc_rows dfR common).map Prod.fst = common :=
        loc_rows_map_fst dfR common hdfR hsub1
      have e2 : (loc_rows tidesR common).map Prod.fst = common :=
        loc_rows_map_fst tidesR common htR hsub2
      have hfix : ∀ t ∈ common, round10 t = t := by
        intro t htc
        have := hsub1 t htc
        rw [hdfRdef, List.map_map] at this
        obtain ⟨r, _, hr⟩ := List.mem_map.mp this
        rw [← hr]
        exact round10_idem r.1
      calc (loc_rows dfR common).map (fun r => round10 r.1)
          = ((loc_rows dfR common).map Prod.fst).map round10 := by rw [List.map_map]; rfl
        _ = common.map round10 := by rw [e1]
        _ = ((loc_rows tidesR common).map Prod.fst).map round10 := by rw [e2]
        _ = (loc_rows tidesR common).map (fun s => round10 s.1) := by rw [List.map_map]; rfl
  refine ⟨?_, hmain, ?_, ?_⟩
  · unfold align_dates
    rw [if_pos hlen]
  · have := congrArg List.length hmain
    simpa using this
  · exact zip_all_of_map_eq (fun r : Nat × Option ℚ => round10 r.1)
      (fun s : Nat × ℚ => round10 s.1) _ _ hmain

/-- C10 amended witness: the theorem applied at concrete tables, one pair of
mismatching lengths and one duplicate-free pair. -/
theorem slope_alignment_amended_witness :
    align_dates [(0, some 1)] [] = Except.error "Lengths must match to compare" ∧
    ((align_tables [(1, some 1)] [(0, 2)]).1.map (fun r : Nat × Option ℚ => round10 r.1))
      = ((align_tables [(1, some 1)] [(0, 2)]).2.map (fun s : Nat × ℚ => round10 s.1)) := by
  have h := slope_alignment_amended [(0, some 1)] [] (by decide)
    [(1, some 1)] [(0, 2)] (by decide) (by decide) (by decide)
  exact ⟨h.1, h.2.1⟩

end CoastSat
